import Mathlib

/-!
Verification of the response-splitting and HTTP-client logic of a chat
front-end (`app.py`).  The splitter `parse_deepseek_response` separates a
`<think>...</think>` reasoning region from the final answer using a lazy
regex search, a global regex substitution, and Python `strip`.  We embed
strings as `List Char` and model the regex operations by explicit
first-occurrence search.
-/

namespace DeepseekApp

/-- Whitespace characters removed by Python `str.strip()` (ASCII part). -/
def isPySpace (c : Char) : Bool :=
  c == ' ' || c == '\t' || c == '\n' || c == '\r' || c == '\x0b' || c == '\x0c'

/-- Python `str.strip()`: drop leading and trailing whitespace. -/
def strip (s : List Char) : List Char :=
  ((s.dropWhile isPySpace).reverse.dropWhile isPySpace).reverse

/-- First occurrence of `pat` in `s`: returns `(before, after)` with
`s = before ++ pat ++ after` and `before` shortest possible.  This is how a
regex engine locates the leftmost match of a literal. -/
def splitFirst (pat : List Char) : List Char → Option (List Char × List Char)
  | [] => if pat = [] then some ([], []) else none
  | c :: rest =>
    if pat.isPrefixOf (c :: rest) then
      some ([], (c :: rest).drop pat.length)
    else
      (splitFirst pat rest).map (fun p => (c :: p.1, p.2))

/-- Whether `pat` occurs as a contiguous substring of `s`. -/
def occurs (pat s : List Char) : Bool :=
  (splitFirst pat s).isSome

/-- The opening marker of the source regex `<think>(.*?)</think>`. -/
def thinkOpen : List Char := "<think>".data

/-- The closing marker of the source regex `<think>(.*?)</think>`. -/
def thinkClose : List Char := "</think>".data

/-- Model of `re.search(r"<think>(.*?)</think>", s, re.DOTALL)`: the leftmost match of
the pattern.  With the lazy quantifier this is the first opening marker that
has a closing marker after it, paired with the first such closing marker;
returns `(before, group1, after)`.  Since no closing marker can overlap an
opening marker, the opening marker of the leftmost match is the first
occurrence of `<think>` in the text. -/
def findThink (s : List Char) : Option (List Char × List Char × List Char) :=
  match splitFirst thinkOpen s with
  | none => none
  | some (pre, rest) =>
    match splitFirst thinkClose rest with
    | none => none
    | some (mid, post) => some (pre, mid, post)

/-- Fuel-indexed implementation of the global substitution
`re.sub(r"<think>(.*?)</think>", "", s, flags=re.DOTALL)`: repeatedly remove
the leftmost match and continue after it.  Each removal strictly shortens
the text, so `s.length` fuel always suffices (see `removeThinks_of_some`). -/
def removeThinksF : Nat → List Char → List Char
  | 0, s => s
  | fuel + 1, s =>
    match findThink s with
    | none => s
    | some (pre, _, post) => pre ++ removeThinksF fuel post

/-- Model of `re.sub(r"<think>(.*?)</think>", "", s, flags=re.DOTALL)`. -/
def removeThinks (s : List Char) : List Char :=
  removeThinksF s.length s

/-- The source splitter `parse_deepseek_response`: search for the reasoning
block; if found, `thinking` is the trimmed group and `final_answer` is the
text with all matches removed, trimmed; otherwise `thinking` is empty and
`final_answer` is the whole trimmed text. -/
def parse_deepseek_response (s : List Char) : List Char × List Char :=
  match findThink s with
  | none => ([], strip s)
  | some (_, mid, _) => (strip mid, strip (removeThinks s))

/-! ### Basic facts about first-occurrence search -/

theorem isPrefixOf_append_self (pat t : List Char) : pat.isPrefixOf (pat ++ t) = true := by
  induction pat with
  | nil => simp
  | cons c cs ih => simp [List.isPrefixOf, ih]

theorem isPrefixOf_of_append_le (pat b t : List Char) (h : pat.isPrefixOf (b ++ t) = true)
    (hle : pat.length ≤ b.length) : pat.isPrefixOf b = true := by
  induction pat generalizing b with
  | nil => simp
  | cons c cs ih =>
    cases b with
    | nil => simp at hle
    | cons d b' =>
      simp only [List.cons_append, List.isPrefixOf, Bool.and_eq_true] at h ⊢
      exact ⟨h.1, ih b' h.2 (by simpa [Nat.succ_le_succ_iff] using hle)⟩

theorem splitFirst_eq_of_some (pat s b a : List Char)
    (h : splitFirst pat s = some (b, a)) : s = b ++ pat ++ a := by
  induction s generalizing b with
  | nil =>
    by_cases hp : pat = ([] : List Char)
    · simp [splitFirst, hp] at h
      simp [hp, h.1, h.2]
    · simp [splitFirst, hp] at h
  | cons c rest ih =>
    rw [splitFirst] at h
    by_cases hp : pat.isPrefixOf (c :: rest) = true
    · rw [if_pos hp] at h
      obtain ⟨w, hw⟩ := ( List.isPrefixOf_iff_prefix).mp hp
      injection h with h'
      injection h' with hb ha
      subst hb
      rw [← ha, ← hw, List.nil_append, List.drop_left]
    · rw [if_neg hp] at h
      obtain ⟨⟨b', a'⟩, h1, h2⟩ := Option.map_eq_some'.mp h
      injection h2 with hb ha
      subst ha
      rw [← hb]
      simpa using ih b' h1

theorem occurs_of_decomp (pat u v : List Char) : occurs pat (u ++ pat ++ v) = true := by
  induction u with
  | nil =>
    rw [List.nil_append]
    unfold occurs
    cases hs : pat ++ v with
    | nil =>
      obtain ⟨h1, _⟩ := List.append_eq_nil.mp hs
      simp [splitFirst, h1]
    | cons c rest =>
      rw [splitFirst, if_pos (hs ▸ isPrefixOf_append_self pat v)]
      rfl
  | cons c u' ih =>
    show occurs pat (c :: (u' ++ pat ++ v)) = true
    unfold occurs
    rw [splitFirst]
    by_cases hp : pat.isPrefixOf (c :: (u' ++ pat ++ v)) = true
    · rw [if_pos hp]; rfl
    · rw [if_neg hp, Option.isSome_map']
      exact ih

theorem occurs_iff (pat s : List Char) :
    occurs pat s = true ↔ ∃ u v, s = u ++ pat ++ v := by
  constructor
  · intro h
    obtain ⟨⟨b, a⟩, hba⟩ := Option.isSome_iff_exists.mp h
    exact ⟨b, a, splitFirst_eq_of_some pat s b a hba⟩
  · rintro ⟨u, v, rfl⟩
    exact occurs_of_decomp pat u v

theorem splitFirst_min (pat s b₀ a₀ b a : List Char)
    (h : splitFirst pat s = some (b₀, a₀)) (hd : s = b ++ pat ++ a) :
    ∃ e, b = b₀ ++ e := by
  induction s generalizing b₀ b with
  | nil =>
    by_cases hp : pat = ([] : List Char)
    · simp [splitFirst, hp] at h
      exact ⟨b, by rw [h.1, List.nil_append]⟩
    · simp [splitFirst, hp] at h
  | cons c rest ih =>
    rw [splitFirst] at h
    by_cases hp : pat.isPrefixOf (c :: rest) = true
    · rw [if_pos hp] at h
      injection h with h'
      injection h' with hb _
      exact ⟨b, by rw [← hb, List.nil_append]⟩
    · rw [if_neg hp] at h
      obtain ⟨⟨b', a'⟩, h1, h2⟩ := Option.map_eq_some'.mp h
      injection h2 with hb ha
      subst ha
      cases b with
      | nil =>
        exfalso
        rw [List.nil_append] at hd
        exact hp (hd ▸ isPrefixOf_append_self pat a)
      | cons d b'' =>
        rw [List.cons_append, List.cons_append] at hd
        injection hd with hcd hrest
        obtain ⟨e, he⟩ := ih b' b'' h1 hrest
        exact ⟨e, by rw [← hb, hcd, List.cons_append, he]⟩

/-- The first character of `pat` occurs nowhere else in `pat`; this rules out
`pat` overlapping itself, so a first-occurrence search over `b ++ pat ++ t`
with `pat`-free `b` finds the explicit middle occurrence.  Both markers of
the source regex have this property (all their characters are distinct). -/
def headUnique (pat : List Char) : Prop :=
  pat ≠ [] ∧ ∀ i, i < pat.length → 0 < i → pat[i]? ≠ pat[0]?

theorem headUnique_thinkOpen : headUnique thinkOpen := by
  constructor
  · decide
  · decide

theorem headUnique_thinkClose : headUnique thinkClose := by
  constructor
  · decide
  · decide

theorem splitFirst_append_of_not_occurs (pat b t : List Char) (hu : headUnique pat)
    (hb : occurs pat b = false) : splitFirst pat (b ++ pat ++ t) = some (b, t) := by
  induction b with
  | nil =>
    obtain ⟨hne, _⟩ := hu
    rw [List.nil_append]
    cases hs : pat ++ t with
    | nil =>
      exact absurd (List.append_eq_nil.mp hs).1 hne
    | cons c rest =>
      rw [splitFirst, if_pos (hs ▸ isPrefixOf_append_self pat t), ← hs, List.drop_left]
  | cons c b' ih =>
    have hsplit : ¬ pat.isPrefixOf (c :: b') = true ∧ occurs pat b' = false := by
      by_cases hp : pat.isPrefixOf (c :: b') = true
      · exfalso
        have : occurs pat (c :: b') = true := by
          unfold occurs
          rw [splitFirst, if_pos hp]
          rfl
        rw [hb] at this
        exact Bool.false_ne_true this
      · refine ⟨hp, ?_⟩
        have heq : occurs pat (c :: b') = (splitFirst pat b').isSome := by
          unfold occurs
          rw [splitFirst, if_neg hp, Option.isSome_map']
        show (splitFirst pat b').isSome = false
        rw [← heq]
        exact hb
    show splitFirst pat (c :: (b' ++ pat ++ t)) = some (c :: b', t)
    rw [splitFirst]
    have hnp : ¬ pat.isPrefixOf (c :: (b' ++ pat ++ t)) = true := by
      intro hp
      by_cases hlen : pat.length ≤ (c :: b').length
      · exact hsplit.1 (isPrefixOf_of_append_le pat (c :: b') (pat ++ t)
          (by simpa using hp) hlen)
      · have hlt : (c :: b').length < pat.length := Nat.lt_of_not_le hlen
        obtain ⟨w, hw⟩ := ( List.isPrefixOf_iff_prefix).mp hp
        have hk1 : (c :: (b' ++ pat ++ t))[(c :: b').length]? = pat[(c :: b').length]? := by
          rw [← hw]
          exact List.getElem?_append_left hlt
        have hk2 : (c :: (b' ++ pat ++ t))[(c :: b').length]? = pat[0]? := by
          have hshape : c :: (b' ++ pat ++ t) = (c :: b') ++ (pat ++ t) := by simp
          rw [hshape, List.getElem?_append_right (Nat.le_refl _), Nat.sub_self]
          exact List.getElem?_append_left (List.length_pos.mpr hu.1)
        exact hu.2 (c :: b').length hlt (Nat.succ_pos _) (hk1 ▸ hk2)
    rw [if_neg hnp, ih hsplit.2]
    rfl

theorem findThink_append (a r t2 : List Char)
    (ha : occurs thinkOpen a = false) (hr : occurs thinkClose r = false) :
    findThink (a ++ thinkOpen ++ r ++ thinkClose ++ t2) = some (a, r, t2) := by
  have hshape : a ++ thinkOpen ++ r ++ thinkClose ++ t2
      = a ++ thinkOpen ++ (r ++ thinkClose ++ t2) := by simp
  rw [hshape]
  have h1 := splitFirst_append_of_not_occurs thinkOpen a (r ++ thinkClose ++ t2)
    headUnique_thinkOpen ha
  have h2 := splitFirst_append_of_not_occurs thinkClose r t2 headUnique_thinkClose hr
  unfold findThink
  rw [h1]
  simp only [h2]

/-! ### The fuel of `removeThinksF` is irrelevant once it is at least the
text length, giving the natural recursion equations for `removeThinks`. -/

theorem findThink_post_length (s pre mid post : List Char)
    (h : findThink s = some (pre, mid, post)) : post.length < s.length := by
  unfold findThink at h
  cases h1 : splitFirst thinkOpen s with
  | none => rw [h1] at h; cases h
  | some pr =>
    obtain ⟨pre1, rest⟩ := pr
    rw [h1] at h
    cases h2 : splitFirst thinkClose rest with
    | none =>
      simp only [h2] at h
      exact Option.noConfusion h
    | some mr =>
      obtain ⟨mid1, post1⟩ := mr
      simp only [h2, Option.some.injEq, Prod.mk.injEq] at h
      obtain ⟨e1, e2, e3⟩ := h
      subst e1; subst e3
      have d1 := splitFirst_eq_of_some thinkOpen s pre1 rest h1
      have d2 := splitFirst_eq_of_some thinkClose rest mid1 post1 h2
      have hcl : thinkClose.length = 8 := by decide
      rw [d1, d2]
      simp only [List.length_append, hcl]
      omega

theorem removeThinksF_congr (f1 : Nat) : ∀ (f2 : Nat) (s : List Char),
    s.length ≤ f1 → s.length ≤ f2 → removeThinksF f1 s = removeThinksF f2 s := by
  induction f1 with
  | zero =>
    intro f2 s h1 _
    have hs : s = [] := List.eq_nil_of_length_eq_zero (Nat.le_zero.mp h1)
    subst hs
    cases f2 with
    | zero => rfl
    | succ f2' =>
      have hf : findThink ([] : List Char) = none := by decide
      simp [removeThinksF, hf]
  | succ f1' ih =>
    intro f2 s h1 h2
    cases hft : findThink s with
    | none =>
      cases f2 with
      | zero =>
        have hs : s = [] := List.eq_nil_of_length_eq_zero (Nat.le_zero.mp h2)
        subst hs
        simp [removeThinksF, hft]
      | succ f2' => simp [removeThinksF, hft]
    | some triple =>
      obtain ⟨pre, mid, post⟩ := triple
      have hlt := findThink_post_length s pre mid post hft
      cases f2 with
      | zero =>
        exfalso
        have hs : s = [] := List.eq_nil_of_length_eq_zero (Nat.le_zero.mp h2)
        subst hs
        rw [show findThink ([] : List Char) = none by decide] at hft
        cases hft
      | succ f2' =>
        simp only [removeThinksF, hft]
        rw [ih f2' post (by omega) (by omega)]

theorem removeThinks_of_none (s : List Char) (h : findThink s = none) :
    removeThinks s = s := by
  unfold removeThinks
  cases hl : s.length with
  | zero => rfl
  | succ n => simp [removeThinksF, h]

theorem removeThinks_of_some (s pre mid post : List Char)
    (h : findThink s = some (pre, mid, post)) :
    removeThinks s = pre ++ removeThinks post := by
  have hlt := findThink_post_length s pre mid post h
  unfold removeThinks
  cases hl : s.length with
  | zero => omega
  | succ n =>
    simp only [removeThinksF, h]
    rw [removeThinksF_congr n post.length post (by omega) (Nat.le_refl _)]

/-! ### `strip` produces text with no leading or trailing whitespace -/

theorem head?_dropWhile_all (p : Char → Bool) (l : List Char) :
    ((l.dropWhile p).head?).all (fun c => !p c) = true := by
  induction l with
  | nil => rfl
  | cons c l' ih =>
    by_cases hp : p c = true
    · simpa [List.dropWhile_cons, hp] using ih
    · simp [List.dropWhile_cons, hp]

theorem getLast?_dropWhile (p : Char → Bool) (l : List Char) (c : Char)
    (h : (l.dropWhile p).getLast? = some c) : l.getLast? = some c := by
  obtain ⟨w, hw⟩ := List.dropWhile_suffix p (l := l)
  rw [← hw, List.getLast?_append, h]
  rfl

theorem strip_head_all (s : List Char) :
    ((strip s).head?).all (fun c => !isPySpace c) = true := by
  unfold strip
  rw [List.head?_reverse]
  cases hz : ((s.dropWhile isPySpace).reverse.dropWhile isPySpace).getLast? with
  | none => rfl
  | some c =>
    have h2 := getLast?_dropWhile isPySpace (s.dropWhile isPySpace).reverse c hz
    rw [List.getLast?_reverse] at h2
    have h3 := head?_dropWhile_all isPySpace s
    rw [h2] at h3
    exact h3

theorem strip_getLast_all (s : List Char) :
    ((strip s).getLast?).all (fun c => !isPySpace c) = true := by
  unfold strip
  rw [List.getLast?_reverse]
  exact head?_dropWhile_all isPySpace _

/-- Text has no leading and no trailing Python whitespace. -/
def noEdgeSpace (l : List Char) : Bool :=
  l.head?.all (fun c => !isPySpace c) && l.getLast?.all (fun c => !isPySpace c)

theorem noEdgeSpace_strip (s : List Char) : noEdgeSpace (strip s) = true := by
  unfold noEdgeSpace
  rw [strip_head_all, strip_getLast_all]
  rfl

theorem dropWhile_eq_self_of_head (p : Char → Bool) (l : List Char)
    (h : l.head?.all (fun c => !p c) = true) : l.dropWhile p = l := by
  cases l with
  | nil => rfl
  | cons c l' =>
    have hc : p c = false := by simpa using h
    simp [List.dropWhile_cons, hc]

theorem strip_idem (s : List Char) : strip (strip s) = strip s := by
  have h1 := strip_head_all s
  have h2 := strip_getLast_all s
  conv_lhs => rw [strip]
  rw [dropWhile_eq_self_of_head _ _ h1]
  rw [dropWhile_eq_self_of_head _ _ (by rw [List.head?_reverse]; exact h2)]
  rw [List.reverse_reverse]

/-! ### An occurrence of whitespace-free text survives `strip` -/

theorem occurs_dropWhile_of_decomp (p : Char → Bool) (pat u v : List Char)
    (hh : pat.head?.all (fun c => !p c) = true) (hne : pat ≠ []) :
    occurs pat ((u ++ pat ++ v).dropWhile p) = true := by
  induction u with
  | nil =>
    cases pat with
    | nil => exact absurd rfl hne
    | cons q pat' =>
      have hq : p q = false := by simpa using hh
      rw [List.nil_append, List.cons_append, List.dropWhile_cons, if_neg (by simp [hq])]
      exact occurs_of_decomp (q :: pat') [] v
  | cons c u' ih =>
    have hshape : (c :: u') ++ pat ++ v = c :: (u' ++ pat ++ v) := by simp
    rw [hshape, List.dropWhile_cons]
    by_cases hp : p c = true
    · rw [if_pos hp]
      exact ih
    · rw [if_neg hp]
      have : c :: (u' ++ pat ++ v) = (c :: u') ++ pat ++ v := by simp
      rw [this]
      exact occurs_of_decomp pat (c :: u') v

theorem occurs_reverse (pat s : List Char) (h : occurs pat s = true) :
    occurs pat.reverse s.reverse = true := by
  obtain ⟨u, v, rfl⟩ := (occurs_iff pat s).mp h
  have hshape : (u ++ pat ++ v).reverse = v.reverse ++ pat.reverse ++ u.reverse := by
    simp
  rw [hshape]
  exact occurs_of_decomp pat.reverse v.reverse u.reverse

theorem occurs_strip (pat s : List Char) (hne : pat ≠ [])
    (hh : pat.head?.all (fun c => !isPySpace c) = true)
    (hl : pat.getLast?.all (fun c => !isPySpace c) = true)
    (h : occurs pat s = true) : occurs pat (strip s) = true := by
  obtain ⟨u, v, rfl⟩ := (occurs_iff pat s).mp h
  have s1 : occurs pat ((u ++ pat ++ v).dropWhile isPySpace) = true :=
    occurs_dropWhile_of_decomp isPySpace pat u v hh hne
  have s2 := occurs_reverse pat _ s1
  obtain ⟨u2, v2, hdec⟩ := (occurs_iff _ _).mp s2
  have hh2 : pat.reverse.head?.all (fun c => !isPySpace c) = true := by
    rw [List.head?_reverse]
    exact hl
  have hne2 : pat.reverse ≠ [] := by simpa using hne
  have s3 : occurs pat.reverse
      (((u ++ pat ++ v).dropWhile isPySpace).reverse.dropWhile isPySpace) = true := by
    rw [hdec]
    exact occurs_dropWhile_of_decomp isPySpace pat.reverse u2 v2 hh2 hne2
  have s4 := occurs_reverse pat.reverse _ s3
  rw [List.reverse_reverse] at s4
  exact s4

/-! ### Splitting a text with a clean sequence of reasoning blocks -/

/-- The text `assemble [(a₁,r₁),…,(aₙ,rₙ)] t`, that is
`a₁ ++ "<think>" ++ r₁ ++ "</think>" ++ … ++ aₙ ++ "<think>" ++ rₙ ++ "</think>" ++ t`:
plain text interleaved with `n` complete reasoning blocks. -/
def assemble : List (List Char × List Char) → List Char → List Char
  | [], t => t
  | (a, r) :: ps, t => a ++ thinkOpen ++ r ++ thinkClose ++ assemble ps t

/-- The same text with every reasoning block (markers included) removed. -/
def plainParts : List (List Char × List Char) → List Char → List Char
  | [], t => t
  | (a, _) :: ps, t => a ++ plainParts ps t

theorem removeThinks_assemble (ps : List (List Char × List Char)) (t : List Char)
    (hps : ∀ p ∈ ps, occurs thinkOpen p.1 = false ∧ occurs thinkClose p.2 = false)
    (ht : findThink t = none) :
    removeThinks (assemble ps t) = plainParts ps t := by
  induction ps with
  | nil => exact removeThinks_of_none t ht
  | cons hd ps' ih =>
    obtain ⟨a, r⟩ := hd
    obtain ⟨ha, hr⟩ := hps (a, r) (List.mem_cons_self _ _)
    have hfind := findThink_append a r (assemble ps' t) ha hr
    rw [show assemble ((a, r) :: ps') t
        = a ++ thinkOpen ++ r ++ thinkClose ++ assemble ps' t from rfl]
    rw [removeThinks_of_some _ a r (assemble ps' t) hfind]
    rw [ih (fun p hp => hps p (List.mem_cons_of_mem _ hp))]
    rfl

theorem findThink_decomp (s pre mid post : List Char)
    (h : findThink s = some (pre, mid, post)) :
    s = pre ++ thinkOpen ++ mid ++ thinkClose ++ post := by
  unfold findThink at h
  cases h1 : splitFirst thinkOpen s with
  | none => rw [h1] at h; cases h
  | some pr =>
    obtain ⟨pre1, rest⟩ := pr
    rw [h1] at h
    cases h2 : splitFirst thinkClose rest with
    | none =>
      simp only [h2] at h
      exact Option.noConfusion h
    | some mr =>
      obtain ⟨mid1, post1⟩ := mr
      simp only [h2, Option.some.injEq, Prod.mk.injEq] at h
      obtain ⟨e1, e2, e3⟩ := h
      subst e1; subst e2; subst e3
      have d1 := splitFirst_eq_of_some thinkOpen s pre1 rest h1
      have d2 := splitFirst_eq_of_some thinkClose rest mid1 post1 h2
      rw [d1, d2]
      simp

theorem occurs_extend (pat u w : List Char) (h : occurs pat u = true) :
    occurs pat (u ++ w) = true := by
  obtain ⟨x, y, rfl⟩ := (occurs_iff pat u).mp h
  have hshape : x ++ pat ++ y ++ w = x ++ pat ++ (y ++ w) := by simp
  rw [hshape]
  exact occurs_of_decomp pat x (y ++ w)

theorem parse_answer_eq_strip (s : List Char) :
    ∃ y, (parse_deepseek_response s).2 = strip y := by
  unfold parse_deepseek_response
  cases hft : findThink s with
  | none =>
    simp only [hft]
    exact ⟨s, rfl⟩
  | some tr =>
    obtain ⟨pre, mid, post⟩ := tr
    simp only [hft]
    exact ⟨removeThinks s, rfl⟩

/-! ### The claims about the response splitter -/

/-- Claim C1: for input text containing more than one complete reasoning
block — plain text `a`, a first block with body `r`, at least one further
block in `ps` (interleaved with opening-marker-free plain text), and
block-free trailing text `t` — the splitter returns as reasoning the trimmed
body of only the first block, while the answer is the input with every block
removed (global removal) and then trimmed. -/
theorem split_multiple_blocks (a r : List Char) (ps : List (List Char × List Char))
    (t : List Char)
    (ha : occurs thinkOpen a = false) (hr : occurs thinkClose r = false)
    (hps : ∀ p ∈ ps, occurs thinkOpen p.1 = false ∧ occurs thinkClose p.2 = false)
    (ht : findThink t = none) (_hmore : ps ≠ []) :
    parse_deepseek_response (assemble ((a, r) :: ps) t)
      = (strip r, strip (plainParts ((a, r) :: ps) t)) := by
  have hall : ∀ p ∈ (a, r) :: ps,
      occurs thinkOpen p.1 = false ∧ occurs thinkClose p.2 = false := by
    intro p hp
    rcases List.mem_cons.mp hp with h | h
    · subst h; exact ⟨ha, hr⟩
    · exact hps p h
  have hfind := findThink_append a r (assemble ps t) ha hr
  have hrem := removeThinks_assemble ((a, r) :: ps) t hall ht
  have hshape : assemble ((a, r) :: ps) t
      = a ++ thinkOpen ++ r ++ thinkClose ++ assemble ps t := rfl
  unfold parse_deepseek_response
  rw [hshape]
  simp only [hfind]
  rw [← hshape, hrem]

theorem split_multiple_blocks_witness :
    parse_deepseek_response
        (assemble [("A ".data, " r1 ".data), ("b".data, "r2".data)] " c".data)
      = (strip " r1 ".data,
         strip (plainParts [("A ".data, " r1 ".data), ("b".data, "r2".data)] " c".data)) :=
  split_multiple_blocks "A ".data " r1 ".data [("b".data, "r2".data)] " c".data
    (by decide) (by decide) (by decide) (by decide) (by decide)

/-- Claim C2 as stated is false: it puts no restriction on the text around
the block, but if the leading text itself contains a block (here
`<think>a</think>` before an explicit `<think>b</think>` block with
marker-free body `b`), the splitter reports the leading block as reasoning
and strips both blocks from the answer, not `(trim "b", trim (affixes))`. -/
theorem split_affix_unrestricted_false :
    (occurs thinkOpen "b".data = false ∧ occurs thinkClose "b".data = false) ∧
    parse_deepseek_response
        ("<think>a</think>".data ++ thinkOpen ++ "b".data ++ thinkClose ++ [])
      ≠ (strip "b".data, strip ("<think>a</think>".data ++ ([] : List Char))) := by
  decide

/-- Claim C2 amended: for text `u ++ "<think>" ++ r ++ "</think>" ++ v` where
`r` contains no marker substrings, `u` contains no opening marker and `v`
contains no complete reasoning block, the splitter returns
`(trim r, trim (u ++ v))`. -/
theorem split_single_block_clean (u r v : List Char)
    (hu : occurs thinkOpen u = false)
    (_hr1 : occurs thinkOpen r = false) (hr2 : occurs thinkClose r = false)
    (hv : findThink v = none) :
    parse_deepseek_response (u ++ thinkOpen ++ r ++ thinkClose ++ v)
      = (strip r, strip (u ++ v)) := by
  have hfind := findThink_append u r v hu hr2
  unfold parse_deepseek_response
  simp only [hfind]
  rw [removeThinks_of_some _ u r v hfind, removeThinks_of_none v hv]

theorem split_single_block_clean_witness :
    parse_deepseek_response
        ("Hello ".data ++ thinkOpen ++ " why ".data ++ thinkClose ++ " there".data)
      = (strip " why ".data, strip ("Hello ".data ++ " there".data)) :=
  split_single_block_clean "Hello ".data " why ".data " there".data
    (by decide) (by decide) (by decide) (by decide)

/-- Claim C3 as stated is false: the answer component need not be a fixed
point of the splitter.  Removing the first block of
`<thi<think>X</think>nk>hello</think>` splices the surrounding text into a
brand-new `<think>hello</think>` block, so re-splitting the answer extracts
`hello` as reasoning instead of returning the answer unchanged. -/
theorem split_answer_not_fixed_point :
    parse_deepseek_response
        ((parse_deepseek_response "<thi<think>X</think>nk>hello</think>".data).2)
      ≠ ([], (parse_deepseek_response "<thi<think>X</think>nk>hello</think>".data).2) := by
  decide

/-- Claim C3 amended: re-splitting already-split answer text is stable
whenever that answer contains no complete reasoning block (the global
removal step can splice the remaining fragments into a new block, and in
that case re-splitting extracts it as reasoning). -/
theorem split_answer_stable_of_no_block (s : List Char)
    (h : findThink (parse_deepseek_response s).2 = none) :
    parse_deepseek_response (parse_deepseek_response s).2
      = ([], (parse_deepseek_response s).2) := by
  obtain ⟨y, hy⟩ := parse_answer_eq_strip s
  rw [hy] at h ⊢
  unfold parse_deepseek_response
  simp only [h]
  rw [strip_idem]

theorem split_answer_stable_of_no_block_witness :
    parse_deepseek_response ((parse_deepseek_response " <think>a</think> hi ".data).2)
      = ([], (parse_deepseek_response " <think>a</think> hi ".data).2) :=
  split_answer_stable_of_no_block " <think>a</think> hi ".data (by decide)

/-- Claim C4: if the first opening marker of the text has no closing marker
anywhere after it, the splitter treats the text as having no reasoning
block: reasoning is empty and the answer is the full trimmed input,
markers included. -/
theorem split_unclosed_marker (s b rest : List Char)
    (hopen : splitFirst thinkOpen s = some (b, rest))
    (hnoclose : occurs thinkClose rest = false) :
    parse_deepseek_response s = ([], strip s) := by
  have hclose : splitFirst thinkClose rest = none := by
    cases hc : splitFirst thinkClose rest with
    | none => rfl
    | some p =>
      exfalso
      have hT : occurs thinkClose rest = true := by
        unfold occurs
        rw [hc]
        rfl
      rw [hnoclose] at hT
      exact Bool.false_ne_true hT
  have hft : findThink s = none := by
    unfold findThink
    rw [hopen]
    simp only [hclose]
  unfold parse_deepseek_response
  simp only [hft]

theorem split_unclosed_marker_witness :
    parse_deepseek_response "<think>partial".data = ([], "<think>partial".data) := by
  have h := split_unclosed_marker "<think>partial".data [] "partial".data
    (by decide) (by decide)
  rw [h]
  decide

/-- Claim C5: text containing no complete reasoning block — no decomposition
into an opening marker later followed by a closing marker — splits into
empty reasoning and the whole input trimmed. -/
theorem split_no_block (s : List Char)
    (h : ¬ ∃ u r v, s = u ++ thinkOpen ++ r ++ thinkClose ++ v) :
    parse_deepseek_response s = ([], strip s) := by
  cases hft : findThink s with
  | none =>
    unfold parse_deepseek_response
    simp only [hft]
  | some tr =>
    obtain ⟨pre, mid, post⟩ := tr
    exact absurd ⟨pre, mid, post, findThink_decomp s pre mid post hft⟩ h

theorem split_no_block_witness :
    parse_deepseek_response " hello there ".data = ([], "hello there".data) := by
  have hno : ¬ ∃ u r v, " hello there ".data
      = u ++ thinkOpen ++ r ++ thinkClose ++ v := by
    rintro ⟨u, r, v, he⟩
    have ho : occurs thinkOpen " hello there ".data = true :=
      (occurs_iff _ _).mpr ⟨u, r ++ thinkClose ++ v, by rw [he]; simp⟩
    rw [show occurs thinkOpen " hello there ".data = false by decide] at ho
    exact Bool.false_ne_true ho
  rw [split_no_block " hello there ".data hno]
  decide

/-- Claim C6: a closing marker with no preceding opening marker is inert:
if every closing-marker occurrence in the text has no opening marker before
it, the splitter returns empty reasoning, and the closing marker is left in
place inside the trimmed answer. -/
theorem split_lone_close_inert (s : List Char)
    (hC : occurs thinkClose s = true)
    (hO : ∀ u v, s = u ++ thinkClose ++ v → occurs thinkOpen u = false) :
    parse_deepseek_response s = ([], strip s) ∧
    occurs thinkClose (parse_deepseek_response s).2 = true := by
  have hft : findThink s = none := by
    cases hft : findThink s with
    | none => rfl
    | some tr =>
      obtain ⟨pre, mid, post⟩ := tr
      exfalso
      have hd := findThink_decomp s pre mid post hft
      have hu := hO (pre ++ thinkOpen ++ mid) post hd
      have ho : occurs thinkOpen (pre ++ thinkOpen ++ mid) = true :=
        occurs_of_decomp thinkOpen pre mid
      rw [hu] at ho
      exact Bool.false_ne_true ho
  have hparse : parse_deepseek_response s = ([], strip s) := by
    unfold parse_deepseek_response
    simp only [hft]
  refine ⟨hparse, ?_⟩
  rw [hparse]
  exact occurs_strip thinkClose s (by decide) (by decide) (by decide) hC

theorem split_lone_close_inert_witness :
    parse_deepseek_response "a</think>b".data = ([], "a</think>b".data) ∧
    occurs thinkClose (parse_deepseek_response "a</think>b".data).2 = true := by
  have h := split_lone_close_inert "a</think>b".data (by decide) ?ho
  case ho =>
    intro u v he
    cases hoc : occurs thinkOpen u with
    | false => rfl
    | true =>
      exfalso
      have h2 := occurs_extend thinkOpen u (thinkClose ++ v) hoc
      rw [show u ++ (thinkClose ++ v) = u ++ thinkClose ++ v by simp] at h2
      rw [← he] at h2
      rw [show occurs thinkOpen "a</think>b".data = false by decide] at h2
      exact Bool.false_ne_true h2
  obtain ⟨h1, h2⟩ := h
  refine ⟨?_, h2⟩
  rw [h1]
  decide

/-- Claim C10: for every input, both components returned by the splitter are
trimmed: neither the reasoning string nor the answer string has leading or
trailing whitespace. -/
theorem split_components_trimmed (s : List Char) :
    noEdgeSpace (parse_deepseek_response s).1 = true ∧
    noEdgeSpace (parse_deepseek_response s).2 = true := by
  unfold parse_deepseek_response
  cases hft : findThink s with
  | none =>
    simp only [hft]
    exact ⟨rfl, noEdgeSpace_strip s⟩
  | some tr =>
    obtain ⟨pre, mid, post⟩ := tr
    simp only [hft]
    exact ⟨noEdgeSpace_strip mid, noEdgeSpace_strip _⟩

/-! ### The Ollama HTTP client

`OllamaClient.chat_stream` iterates the lines of a streaming response.  Each
line is decoded and fed to `json.loads`; only `json.JSONDecodeError` is
caught, so a line that fails to parse as JSON is skipped, while a line that
fails UTF-8 decoding raises an uncaught `UnicodeDecodeError`; parsed values
go through `"message" in data`, `data["message"]`,
`"content" in data["message"]`, `data["message"]["content"]` and
`data.get("done", False)`, any of which can raise an uncaught `TypeError`,
`KeyError` or `AttributeError` when the value is not a JSON object of the
expected shape.  We model JSON values, Python indexing semantics, and the
generator as the list of yielded values together with how it ended. -/

/-- A parsed JSON value as produced by `json.loads`. -/
inductive PyJson where
  | obj (fields : List (String × PyJson))
  | arr (elems : List PyJson)
  | str (s : String)
  | num (n : Int)
  | bool (b : Bool)
  | null

/-- Key lookup in a JSON object; `json.loads` keeps the last binding of a
duplicated key. -/
def jsonGet (fields : List (String × PyJson)) (k : String) : Option PyJson :=
  (fields.reverse.find? (fun p => p.1 == k)).map (fun p => p.2)

/-- Python truthiness of a JSON value (`if data.get("done", False):`). -/
def PyJson.truthy : PyJson → Bool
  | .obj fields => !fields.isEmpty
  | .arr elems => !elems.isEmpty
  | .str s => !(s == "")
  | .num n => !(n == 0)
  | .bool b => b
  | .null => false

/-- Python `k in data`: key test on a dict, element test on a list,
substring test on a string, and an uncaught `TypeError` on any other
value. -/
def pyContains (data : PyJson) (k : String) : Except Unit Bool :=
  match data with
  | .obj fields => .ok (jsonGet fields k).isSome
  | .arr elems => .ok (elems.any (fun e =>
      match e with
      | .str s => s == k
      | _ => false))
  | .str s => .ok (occurs k.data s.data)
  | _ => .error ()

/-- Python `data[k]` with a string key: succeeds only on a dict that has the
key; everything else raises (`TypeError`/`KeyError`). -/
def pyGetItem (data : PyJson) (k : String) : Except Unit PyJson :=
  match data with
  | .obj fields =>
    match jsonGet fields k with
    | some v => .ok v
    | none => .error ()
  | _ => .error ()

/-- Python `data.get(k, dflt)`: only dicts have `.get`; anything else raises
`AttributeError`. -/
def pyDictGet (data : PyJson) (k : String) (dflt : PyJson) : Except Unit PyJson :=
  match data with
  | .obj fields => .ok ((jsonGet fields k).getD dflt)
  | _ => .error ()

/-- One line of the wire response, as seen after `response.iter_lines()`:
empty (falsy, skipped by `if line:`); not valid UTF-8, so that
`line.decode("utf-8")` raises `UnicodeDecodeError` — which the
`except json.JSONDecodeError` clause does not catch, aborting the
generator; decodable but unparseable, raising `json.JSONDecodeError`,
which is caught and the line skipped; or a parsed JSON value. -/
inductive WireLine where
  | empty
  | undecodable
  | malformed
  | parsed (v : PyJson)

/-- How the generator's line loop ended. -/
inductive StreamOutcome where
  | finished
  | raised
deriving DecidableEq

/-- Effect of processing one parsed line: the value yielded before the
control effect (if any), then continue, break, or an uncaught exception. -/
inductive LineStep where
  | cont (y : Option PyJson)
  | brk (y : Option PyJson)
  | exn (y : Option PyJson)

/-- The body of the line loop for one parsed value: the source's
`if "message" in data and "content" in data["message"]: yield ...` followed
by `if data.get("done", False): break`. -/
def processParsed (data : PyJson) : LineStep :=
  match condYield data with
  | .error _ => .exn none
  | .ok y =>
    match pyDictGet data "done" (PyJson.bool false) with
    | .error _ => .exn y
    | .ok d => if d.truthy then .brk y else .cont y
where
  /-- Evaluates `"message" in data and "content" in data["message"]`,
  returning the content to yield when the condition holds. -/
  condYield (data : PyJson) : Except Unit (Option PyJson) :=
    match pyContains data "message" with
    | .error _ => .error ()
    | .ok false => .ok none
    | .ok true =>
      match pyGetItem data "message" with
      | .error _ => .error ()
      | .ok msg =>
        match pyContains msg "content" with
        | .error _ => .error ()
        | .ok false => .ok none
        | .ok true =>
          match pyGetItem msg "content" with
          | .error _ => .error ()
          | .ok c => .ok (some c)

/-- The line loop of `chat_stream`: skip falsy lines, abort on lines whose
UTF-8 decoding raises, skip lines raising `JSONDecodeError`, process parsed
values, stop on the completion flag, and abort with an uncaught exception
for values of unexpected shape.  Returns the yielded values and how the
loop ended. -/
def runLines : List WireLine → List PyJson × StreamOutcome
  | [] => ([], .finished)
  | .empty :: rest => runLines rest
  | .undecodable :: _ => ([], .raised)
  | .malformed :: rest => runLines rest
  | .parsed v :: rest =>
    match processParsed v with
    | .exn y => (y.toList, .raised)
    | .brk y => (y.toList, .finished)
    | .cont y =>
      let r := runLines rest
      (y.toList ++ r.1, r.2)

/-- The outcome of issuing the streaming POST request: a transport-level
failure (`requests.exceptions.RequestException`, carrying its message), or a
response with a status code and its lines. -/
inductive HttpResponse where
  | exn (msg : String)
  | ok (status : Nat) (lines : List WireLine)

/-- Model of `OllamaClient.chat_stream` as a function from the request outcome to the
sequence of yielded values and the way the generator ended: on a transport
failure yield one error string; on a non-success status yield one error
string; on status 200 run the line loop. -/
def chat_stream (resp : HttpResponse) : List PyJson × StreamOutcome :=
  match resp with
  | .exn m => ([PyJson.str ("연결 오류: " ++ m)], .finished)
  | .ok status lines =>
    if status = 200 then runLines lines
    else ([PyJson.str ("오류 발생: HTTP " ++ toString status)], .finished)

/-- The outcome of the catalog GET request in `get_models`: a transport
failure, or a response with a status and a body; `body = none` models a body
that is not valid JSON, in which case `response.json()` raises
`requests.exceptions.JSONDecodeError`, a `RequestException` subclass that
the source catches. -/
inductive TagsResult where
  | exn
  | ok (status : Nat) (body : Option PyJson)

/-- The list comprehension `[model["name"] for model in models]`: iterating
a list indexes each element; iterating an empty string or empty dict yields
nothing; iterating anything else (or indexing a non-dict element) raises an
uncaught `TypeError`/`KeyError`. -/
def listCompNames : PyJson → Except Unit (List PyJson)
  | .arr ms => extractNames ms
  | .str s => if s.data.isEmpty then .ok [] else .error ()
  | .obj fields => if fields.isEmpty then .ok [] else .error ()
  | _ => .error ()
where
  extractNames : List PyJson → Except Unit (List PyJson)
    | [] => .ok []
    | m :: rest =>
      match pyGetItem m "name" with
      | .error _ => .error ()
      | .ok v => (extractNames rest).map (fun l => v :: l)

/-- Model of `OllamaClient.get_models`: returns the caught-and-handled value
`Except.ok names` (with `[]` on handled failures), or `Except.error ()` when
an uncaught exception escapes to the caller. -/
def get_models (r : TagsResult) : Except Unit (List PyJson) :=
  match r with
  | .exn => .ok []
  | .ok status body =>
    if status = 200 then
      match body with
      | none => .ok []
      | some j =>
        match pyDictGet j "models" (PyJson.arr []) with
        | .error _ => .error ()
        | .ok models => listCompNames models
    else .ok []

/-! ### The claims about the client -/

/-- Claim C7: on a transport-level failure or on a non-success HTTP status,
`chat_stream` yields exactly one human-readable error string instead of any
content fragments and the sequence then terminates; no retry occurs. -/
theorem chat_stream_failure_single_error (m : String) (status : Nat)
    (lines : List WireLine) (h : status ≠ 200) :
    chat_stream (.exn m) = ([PyJson.str ("연결 오류: " ++ m)], .finished) ∧
    chat_stream (.ok status lines)
      = ([PyJson.str ("오류 발생: HTTP " ++ toString status)], .finished) := by
  refine ⟨rfl, ?_⟩
  show (if status = 200 then runLines lines
      else ([PyJson.str ("오류 발생: HTTP " ++ toString status)], .finished))
    = ([PyJson.str ("오류 발생: HTTP " ++ toString status)], .finished)
  rw [if_neg h]

theorem chat_stream_failure_single_error_witness :
    chat_stream (.exn "timeout") = ([PyJson.str ("연결 오류: " ++ "timeout")], .finished) ∧
    chat_stream (.ok 500 [WireLine.parsed
        (PyJson.obj [("message", PyJson.obj [("content", PyJson.str "x")])])])
      = ([PyJson.str ("오류 발생: HTTP " ++ toString 500)], .finished) :=
  chat_stream_failure_single_error "timeout" 500
    [WireLine.parsed (PyJson.obj [("message", PyJson.obj [("content", PyJson.str "x")])])]
    (by decide)

/-- Claim C8 as stated is false: the wire line `5` does not parse as a
well-formed unit containing a content field, yet it is not silently
skipped — `"message" in 5` raises an uncaught `TypeError`, terminating the
sequence and dropping the well-formed content line that follows (skipping
would have produced `(["hi"], finished)`). -/
theorem chat_stream_scalar_line_not_skipped :
    runLines [WireLine.parsed (PyJson.num 5),
        WireLine.parsed (PyJson.obj [("message", PyJson.obj [("content", PyJson.str "hi")])])]
      = ([], .raised) ∧
    runLines [WireLine.parsed (PyJson.num 5),
        WireLine.parsed (PyJson.obj [("message", PyJson.obj [("content", PyJson.str "hi")])])]
      ≠ ([PyJson.str "hi"], .finished) := by
  refine ⟨rfl, ?_⟩
  intro h
  have h0 : runLines [WireLine.parsed (PyJson.num 5),
      WireLine.parsed (PyJson.obj [("message", PyJson.obj [("content", PyJson.str "hi")])])]
      = ([], .raised) := rfl
  rw [h0] at h
  injection h with h1 _
  exact List.noConfusion h1

/-- Claim C8 amended: empty lines and lines that fail JSON parsing
(`json.JSONDecodeError`) are silently skipped without terminating the
sequence; a parsed object with no `message` key, or whose `message` value
is an object lacking a `content` field, is likewise skipped; a well-formed
unit `{"message": {"content": c}, "done": b}` has its content yielded, and
the sequence terminates when the completion flag is truthy.  However, a
line that is not valid UTF-8 raises an uncaught `UnicodeDecodeError`, and
a parsed line whose value is not an object (e.g. a bare number), or an
object whose `message` value is a number, boolean or null, raises an
uncaught `TypeError`; each of these terminates the sequence instead of
being skipped. -/
theorem chat_stream_line_handling (rest : List WireLine) (c x y : PyJson)
    (b : Bool) (n : Int) :
    runLines (.empty :: rest) = runLines rest ∧
    runLines (.malformed :: rest) = runLines rest ∧
    runLines (.parsed (.obj [("other", x)]) :: rest) = runLines rest ∧
    runLines (.parsed (.obj [("message", .obj [("other", y)])]) :: rest) = runLines rest ∧
    runLines (.parsed (.obj [("message", .obj [("content", c)]), ("done", .bool b)]) :: rest)
      = (if b then ([c], .finished)
         else (c :: (runLines rest).1, (runLines rest).2)) ∧
    runLines (.undecodable :: rest) = ([], .raised) ∧
    runLines (.parsed (.obj [("message", .null)]) :: rest) = ([], .raised) ∧
    runLines (.parsed (.obj [("message", .num 5)]) :: rest) = ([], .raised) ∧
    runLines (.parsed (.num n) :: rest) = ([], .raised) := by
  refine ⟨rfl, rfl, rfl, rfl, ?_, rfl, rfl, rfl, rfl⟩
  cases b <;> rfl

/-- Claim C9 as stated is false: a 200 catalog response whose JSON body has
a model entry without a `name` field makes `model["name"]` raise an uncaught
`KeyError`, so the call surfaces the error to the caller instead of
returning an empty sequence. -/
theorem get_models_bad_shape_raises :
    get_models (.ok 200 (some (PyJson.obj [("models", PyJson.arr [PyJson.obj []])])))
      = .error () ∧
    get_models (.ok 200 (some (PyJson.obj [("models", PyJson.arr [PyJson.obj []])])))
      ≠ .ok [] := by
  refine ⟨rfl, ?_⟩
  intro h
  have h0 : get_models (.ok 200 (some (PyJson.obj [("models", PyJson.arr [PyJson.obj []])])))
      = Except.error () := rfl
  rw [h0] at h
  exact Except.noConfusion h

/-- Claim C9 amended: `get_models` returns an empty list and surfaces no
error on a transport failure, on a non-success status, and on a 200 response
whose body is not valid JSON (requests raises its `JSONDecodeError`, a
`RequestException` subclass, which the source catches); but a syntactically
valid JSON body of unexpected shape raises instead
(`get_models_bad_shape_raises`). -/
theorem get_models_empty_on_failure (status : Nat) (body : Option PyJson)
    (h : status ≠ 200) :
    get_models .exn = .ok [] ∧
    get_models (.ok status body) = .ok [] ∧
    get_models (.ok 200 none) = .ok [] := by
  refine ⟨rfl, ?_, rfl⟩
  show (if status = 200 then
      match body with
      | none => Except.ok []
      | some j =>
        match pyDictGet j "models" (PyJson.arr []) with
        | Except.error _ => Except.error ()
        | Except.ok models => listCompNames models
    else Except.ok ([] : List PyJson)) = Except.ok ([] : List PyJson)
  rw [if_neg h]

theorem get_models_empty_on_failure_witness :
    get_models .exn = .ok [] ∧
    get_models (.ok 404 (some (PyJson.str "oops"))) = .ok [] ∧
    get_models (.ok 200 none) = .ok [] :=
  get_models_empty_on_failure 404 (some (PyJson.str "oops")) (by decide)

end DeepseekApp
